import Mathlib

/-!
# A verification development for the Go package `logger`

The package emits structured log lines.  `Logger.Log` merges the metadata
carried by a context with the key-value pairs given at the call site, asks a
filter whether the line is suppressed, injects the reserved keys `caller` and
`time`, formats the mapping and writes the line to a sink.  `JSONFormatter`
is the default formatter.

## Embedding

* A Go `string` is a sequence of bytes: `GoString` is `List Nat`, one number
  per byte.  `str` turns a literal into its UTF-8 bytes.
* A Go `map[string]string` is the list of its entries: `GoMap`.  The keys of a
  Go map are pairwise distinct; the order of the list stands for the order in
  which `range` happens to visit the entries, which Go leaves unspecified.
* `io.Writer` is stateful: `Writer σ` passes the state `σ` of the sink
  explicitly, and `Write` returns the new state with the error (`none` is
  Go's `nil`).
* The caller resolver and the timer are `func() string`: `Unit → GoString`,
  the string the function returns when `Log` calls it.  The filter and the
  formatter are functions of the mapping.
* `panic(err)` ends `Log` at once: `LogResult.panic` is `some err`.
* `Log` records, in the order the source makes them, the calls to its five
  strategies (`Event`), so that statements about which strategy ran, and on
  what argument, can be made.
-/

namespace logger

/-! ## Strings -/

/-- A Go `string`: a finite sequence of bytes. -/
abbrev GoString := List Nat

/-- The bytes (UTF-8) of a string literal of the source. -/
def str (s : String) : GoString :=
  (s.data.flatMap String.utf8EncodeChar).map UInt8.toNat

/-- Go's `a < b` on strings: lexicographic comparison byte by byte, a proper
prefix being smaller. -/
def stringLess : GoString → GoString → Bool
  | _, [] => false
  | [], _ :: _ => true
  | a :: as, b :: bs =>
    if a < b then true else if b < a then false else stringLess as bs

/-- Go's `sort.Strings` (standard library): the strings in increasing order.
Strings are totally ordered by `stringLess`, so the increasing arrangement is
unique and every sorting algorithm computes it; insertion sort is used here. -/
def sortStrings (keys : List GoString) : List GoString :=
  keys.insertionSort (fun a b => stringLess b a = false)

/-! ## Maps -/

/-- A Go `map[string]string`, as the list of its entries. -/
abbrev GoMap := List (GoString × GoString)

/-- The keys in the order `for k := range m` visits them. -/
def mapKeys (m : GoMap) : List GoString := m.map Prod.fst

/-- The two-valued read `v, ok := m[k]`. -/
def mapLookup : GoMap → GoString → Option GoString
  | [], _ => none
  | (k', v') :: rest, k => if k' = k then some v' else mapLookup rest k

/-- The read `m[k]`: the zero value `""` when the key is absent. -/
def mapGet (m : GoMap) (k : GoString) : GoString :=
  (mapLookup m k).getD []

/-- The assignment `m[k] = v`. -/
def mapSet : GoMap → GoString → GoString → GoMap
  | [], k, v => [(k, v)]
  | (k', v') :: rest, k, v =>
    if k' = k then (k', v) :: rest else (k', v') :: mapSet rest k v

/-! ## formatter.go -/

def KeyCaller : GoString := str "caller"

def KeyStack : GoString := str "stack"

def KeyTime : GoString := str "time"

/-- The body of `for i, k := range keys` in `JSONFormatter`, statement by
statement; `n` is `len(keys)` and `s` the string built so far. -/
def formatStep (m : GoMap) (n : Nat) (s : GoString) (i : Nat) (k : GoString) : GoString :=
  let s := s ++ str "\""
  let s := s ++ k
  let s := s ++ str "\""
  let s := s ++ str ":"
  let s := if k ≠ KeyStack then s ++ str "\"" else s
  let s := s ++ mapGet m k
  let s := if k ≠ KeyStack then s ++ str "\"" else s
  let s := if i + 1 < n then s ++ str ", " else s
  s

/-- The loop `for i, k := range keys` of `JSONFormatter`, from index `i` on. -/
def formatLoop (m : GoMap) (n : Nat) : List GoString → Nat → GoString → GoString
  | [], _, s => s
  | k :: ks, i, s => formatLoop m n ks (i + 1) (formatStep m n s i k)

/-- The function `JSONFormatter` of formatter.go. -/
def JSONFormatter (m : GoMap) : GoString :=
  let keys := sortStrings (mapKeys m)
  let s := str "\x7b "
  let s := formatLoop m keys.length keys 0 s
  let s := s ++ str " \x7d"
  s

/-! ## Package meta and the level filter

The sources of package `meta` (`meta.Add`, `meta.All`) and of `NewLevelFilter`
are not available.  They are modelled from the specification. -/

/-- Modelled from the spec: the request-scoped context of package `meta`, whose
source is missing.  A context is a chain of immutable nodes, each holding one
key-value pair and a link to its parent; `Background` is `context.Background()`,
a context with no attached metadata. -/
inductive Context where
  | Background : Context
  | node (parent : Context) (key value : GoString) : Context

/-- Modelled from the spec: `meta.Add(ctx, key, value)`, whose source is
missing, returns a new context carrying the additional entry. -/
def Add (ctx : Context) (key value : GoString) : Context :=
  Context.node ctx key value

/-- Modelled from the spec: `meta.All(ctx)`, whose source is missing, flattens
every attachment visible from `ctx` into a single mapping, the most recently
attached value winning on key collision; a context with no attachments yields
the empty mapping. -/
def All : Context → GoMap
  | Context.Background => []
  | Context.node parent key value => mapSet (All parent) key value

def LevelDebug : GoString := str "debug"

def LevelInfo : GoString := str "info"

def LevelWarning : GoString := str "warning"

def LevelError : GoString := str "error"

def KeyLevel : GoString := str "level"

/-- Modelled from the spec: the position of a level token in the ordered set
debug < info < warning < error; `none` for an unrecognized token. -/
def levelRank (level : GoString) : Option Nat :=
  if level = LevelDebug then some 0
  else if level = LevelInfo then some 1
  else if level = LevelWarning then some 2
  else if level = LevelError then some 3
  else none

/-- Modelled from the spec: `NewLevelFilter(threshold)`, whose source is
missing.  The filter reads the level key of the mapping and suppresses (returns
`true` for) a record whose level is strictly below the threshold; a record with
a missing or unrecognized level always passes. -/
def NewLevelFilter (threshold : GoString) : GoMap → Bool := fun m =>
  match mapLookup m KeyLevel with
  | none => false
  | some level =>
    match levelRank level, levelRank threshold with
    | some a, some b => decide (a < b)
    | _, _ => false

/-! ## logger.go -/

/-- A Go `error` value. -/
abbrev Error := String

/-- An `io.Writer` over a sink with states `σ`: `Write st p` is the state after
`Write(p)` together with the returned error (`none` for `nil`). -/
structure Writer (σ : Type) where
  Write : σ → GoString → σ × Option Error

/-- The writer `*bytes.Buffer`: the state is the content of the buffer, and
`Write` appends and never fails. -/
def bufferWriter : Writer GoString where
  Write := fun st p => (st ++ p, none)

/-- The call `fmt.Fprintln(w, a)` for one string operand (standard library):
one `Write` of the operand followed by a newline; the error is returned. -/
def Fprintln {σ : Type} (w : Writer σ) (st : σ) (a : GoString) : σ × Option Error :=
  w.Write st (a ++ str "\n")

/-- The struct `Config`: each field may be `nil` (`none`). -/
structure Config (σ : Type) where
  Caller : Option (Unit → GoString)
  Filter : Option (GoMap → Bool)
  Formatter : Option (GoMap → GoString)
  Timer : Option (Unit → GoString)
  Writer : Option (Writer σ)

/-- The struct `Logger`. -/
structure Logger (σ : Type) where
  caller : Unit → GoString
  filter : GoMap → Bool
  formatter : GoMap → GoString
  timer : Unit → GoString
  writer : Writer σ

/-- The package-level variables of default.go.  They are `var`s, so their
current values are state, read by `New`. -/
structure Defaults (σ : Type) where
  DefaultCaller : Unit → GoString
  DefaultFilter : GoMap → Bool
  DefaultFormatter : GoMap → GoString
  DefaultTimer : Unit → GoString
  DefaultWriter : Writer σ

/-- The values default.go gives the package-level variables.  `DefaultCaller`
(from `stack.Caller`), `DefaultTimer` (from `time.Now`) and `os.Stdout` are
external and taken as parameters. -/
def initialDefaults {σ : Type} (caller timer : Unit → GoString) (stdout : Writer σ) :
    Defaults σ where
  DefaultCaller := caller
  DefaultFilter := NewLevelFilter LevelInfo
  DefaultFormatter := JSONFormatter
  DefaultTimer := timer
  DefaultWriter := stdout

/-- The function `New` of logger.go; `d` holds the current values of the
package-level defaults.  The second component is the returned `error`. -/
def New {σ : Type} (d : Defaults σ) (config : Config σ) : Logger σ × Option Error :=
  let config := if config.Caller.isNone then { config with Caller := some d.DefaultCaller } else config
  let config := if config.Filter.isNone then { config with Filter := some d.DefaultFilter } else config
  let config :=
    if config.Formatter.isNone then { config with Formatter := some d.DefaultFormatter } else config
  let config := if config.Timer.isNone then { config with Timer := some d.DefaultTimer } else config
  let config := if config.Writer.isNone then { config with Writer := some d.DefaultWriter } else config
  match config.Caller, config.Filter, config.Formatter, config.Timer, config.Writer with
  | some caller, some filter, some formatter, some timer, some writer =>
    let l : Logger σ :=
      { caller := caller
        filter := filter
        formatter := formatter
        timer := timer
        writer := writer }
    (l, none)
  | _, _, _, _, _ =>
    -- not reached: after the five tests above no field is `nil`
    ({ caller := d.DefaultCaller
       filter := d.DefaultFilter
       formatter := d.DefaultFormatter
       timer := d.DefaultTimer
       writer := d.DefaultWriter }, none)

/-- What `Log` does to its strategies, in the order of the calls. -/
inductive Event where
  | write (p : GoString) : Event
  | filter (m : GoMap) : Event
  | caller : Event
  | timer : Event
  | formatter (m : GoMap) : Event

/-- The outcome of one call of `Log`: the state of the sink afterwards, the
calls made, and the value of the `panic` that ended the call, if any. -/
structure LogResult (σ : Type) where
  sink : σ
  trace : List Event
  panic : Option Error

/-- The loop `for i := 1; i < len(kvs); i += 2 { m[kvs[i-1]] = kvs[i] }` of
`Log`.  The first argument bounds the number of iterations; `len(kvs)` is
always enough since `i` grows by two. -/
def mergeLoop (kvs : List GoString) : Nat → Nat → GoMap → GoMap
  | 0, _, m => m
  | fuel + 1, i, m =>
    if i < kvs.length then
      let k := kvs.getD (i - 1) []
      let v := kvs.getD i []
      mergeLoop kvs fuel (i + 2) (mapSet m k v)
    else m

/-- The mapping `Log` builds before it asks the filter: `meta.All(ctx)`, then
the loop over the call-site pairs. -/
def merged (ctx : Context) (kvs : List GoString) : GoMap :=
  let m := All ctx
  mergeLoop kvs kvs.length 1 m

/-- The text `Log` writes for an odd number of arguments. -/
def incompleteNotice : GoString :=
  str "given key-value pairs must be complete for logging"

/-- The method `Log` of logger.go, on a sink in state `st`. -/
def Logger.Log {σ : Type} (l : Logger σ) (st : σ) (ctx : Context) (kvs : List GoString) :
    LogResult σ :=
  if kvs.length % 2 ≠ 0 then
    let r := Fprintln l.writer st incompleteNotice
    let tr := [Event.write (incompleteNotice ++ str "\n")]
    match r.2 with
    | some err => { sink := r.1, trace := tr, panic := some err }
    | none => { sink := r.1, trace := tr, panic := none }
  else
    let m := merged ctx kvs
    let tr := [Event.filter m]
    if l.filter m then
      { sink := st, trace := tr, panic := none }
    else
      let m := mapSet m KeyCaller (l.caller ())
      let tr := tr ++ [Event.caller]
      let m := mapSet m KeyTime (l.timer ())
      let tr := tr ++ [Event.timer]
      let line := l.formatter m
      let tr := tr ++ [Event.formatter m]
      let r := Fprintln l.writer st line
      let tr := tr ++ [Event.write (line ++ str "\n")]
      match r.2 with
      | some err => { sink := r.1, trace := tr, panic := some err }
      | none => { sink := r.1, trace := tr, panic := none }

/-- The mappings the filter was applied to. -/
def filterArgs : List Event → List GoMap
  | [] => []
  | Event.filter m :: evs => m :: filterArgs evs
  | _ :: evs => filterArgs evs

/-- The mappings the formatter was applied to. -/
def formatterArgs : List Event → List GoMap
  | [] => []
  | Event.formatter m :: evs => m :: formatterArgs evs
  | _ :: evs => formatterArgs evs

/-- The byte strings handed to the sink, one per `Write`. -/
def writes : List Event → List GoString
  | [] => []
  | Event.write p :: evs => p :: writes evs
  | _ :: evs => writes evs

/-- The number of calls of the caller resolver. -/
def callerCalls : List Event → Nat
  | [] => 0
  | Event.caller :: evs => callerCalls evs + 1
  | _ :: evs => callerCalls evs

/-- The number of calls of the timer. -/
def timerCalls : List Event → Nat
  | [] => 0
  | Event.timer :: evs => timerCalls evs + 1
  | _ :: evs => timerCalls evs

/-- What a call of `Log` hands back to its caller.  The method is declared
without results, so a call that returns hands back the empty list of values; a
call that ends in a panic does not return, and the value is `none`. -/
def LogResult.returned {σ : Type} (r : LogResult σ) : Option (List Error) :=
  match r.panic with
  | none => some []
  | some _ => none

/-- The logger of logger_test.go: `New` on a `Config` that sets a static timer
and a buffer as writer and leaves the other three fields `nil`.  The strings
given for `DefaultCaller` and `DefaultTimer` stand for what `stack.Caller` and
`time.Now` would give. -/
def testLogger : Logger GoString :=
  (New (initialDefaults (fun _ => str "logger_test.go:129")
        (fun _ => str "2006-01-02 15:04:05") bufferWriter)
    { Caller := none, Filter := none, Formatter := none,
      Timer := some (fun _ => str "time"), Writer := some bufferWriter }).1

/-- A writer whose `Write` always fails with `err` and leaves the sink as it
is. -/
def failingWriter (err : Error) : Writer GoString where
  Write := fun st _ => (st, some err)

/-! ## Notions of the specification -/

/-- The text of one entry of the line format: `"k":"v"`, and `"k":v` for the
key `stack`. -/
def entryText (e : GoString × GoString) : GoString :=
  if e.1 = KeyStack then str "\"" ++ e.1 ++ str "\":" ++ e.2
  else str "\"" ++ e.1 ++ str "\":\"" ++ e.2 ++ str "\""

/-- The line format: `{ `, the entries joined by `, `, then ` }`. -/
def lineText (entries : List (GoString × GoString)) : GoString :=
  str "\x7b " ++ List.intercalate (str ", ") (entries.map entryText) ++ str " \x7d"

/-- The call-site pairs `(kvs[0], kvs[1]), (kvs[2], kvs[3]), ...` of an
argument list. -/
def callSitePairs (kvs : List GoString) : List (GoString × GoString) :=
  (List.range (kvs.length / 2)).map
    (fun j => (kvs.getD (2 * j) [], kvs.getD (2 * j + 1) []))

/-- The value a mapping `base` overlaid with `pairs`, in order, has at `k`: the
value of the last pair with key `k`, and the value of `base` when no pair has
that key. -/
def overlayLookup (base : GoMap) (pairs : List (GoString × GoString)) (k : GoString) :
    Option GoString :=
  match mapLookup pairs.reverse k with
  | some v => some v
  | none => mapLookup base k


/-- The reading of the specification of a propagated error: the call returns
to its caller and `err` is among the values it returns. -/
def returnsError {σ : Type} (r : LogResult σ) (err : Error) : Prop :=
  ∃ results : List Error, r.returned = some results ∧ err ∈ results

/-- The byte of the double quote. -/
def doubleQuote : Nat := 34

/-! ## Clients of a logger

The package-level variables of default.go can be assigned by any client.  To
speak of assignments made after `New` has returned, a client is taken as a
sequence of actions on a logger it holds. -/

theorem stringLess_iff_lt (a b : GoString) : stringLess a b = true ↔ a < b := by
  induction a generalizing b with
  | nil =>
    cases b with
    | nil => simp [stringLess]
    | cons y ys => simp [stringLess, List.nil_lt_cons]
  | cons x xs ih =>
    cases b with
    | nil =>
      simp only [stringLess, Bool.false_eq_true, false_iff]
      intro h
      cases h
    | cons y ys =>
      simp only [stringLess]
      constructor
      · intro h
        by_cases hxy : x < y
        · exact List.Lex.rel hxy
        · by_cases hyx : y < x
          · simp [hxy, hyx] at h
          · simp only [hxy, hyx, if_false] at h
            have hEq : x = y := by omega
            subst hEq
            exact List.Lex.cons ((ih ys).1 h)
      · intro h
        cases h with
        | rel hxy => simp [hxy]
        | cons hrest => simp [(ih ys).2 hrest]

theorem stringLess_eq_false_iff_le (a b : GoString) : stringLess b a = false ↔ a ≤ b := by
  rw [← not_lt, ← stringLess_iff_lt]
  simp

theorem sortStrings_eq (keys : List GoString) :
    sortStrings keys = keys.insertionSort (· ≤ ·) := by
  have hins : ∀ (k : GoString) (l : List GoString),
      List.orderedInsert (fun a b => stringLess b a = false) k l
        = List.orderedInsert (· ≤ ·) k l := by
    intro k l
    induction l with
    | nil => rfl
    | cons x xs ih =>
      simp only [List.orderedInsert, stringLess_eq_false_iff_le, ih]
  unfold sortStrings
  induction keys with
  | nil => rfl
  | cons k ks ih => simp only [List.insertionSort, ih, hins]

theorem sortStrings_perm (keys : List GoString) : (sortStrings keys).Perm keys := by
  rw [sortStrings_eq]
  exact List.perm_insertionSort _ _

theorem sortStrings_sorted (keys : List GoString) : (sortStrings keys).Sorted (· ≤ ·) := by
  rw [sortStrings_eq]
  exact List.sorted_insertionSort _ _

/-- The sorted keys are any increasing arrangement of the keys. -/
theorem sortStrings_eq_of_perm_of_sorted (keys ks : List GoString) (hperm : ks.Perm keys)
    (hsorted : ks.Sorted (· ≤ ·)) : sortStrings keys = ks :=
  List.eq_of_perm_of_sorted ((sortStrings_perm keys).trans hperm.symm)
    (sortStrings_sorted keys) hsorted


/-! ## Maps: reading and writing -/

theorem mapLookup_mapSet (m : GoMap) (k v k' : GoString) :
    mapLookup (mapSet m k v) k' = if k = k' then some v else mapLookup m k' := by
  induction m with
  | nil => simp [mapSet, mapLookup]
  | cons e rest ih =>
    obtain ⟨a, b⟩ := e
    by_cases hak : a = k
    · subst hak
      by_cases hk : a = k'
      · simp [mapSet, mapLookup, hk]
      · simp [mapSet, mapLookup, hk]
    · by_cases hk : k = k'
      · subst hk
        simp [mapSet, mapLookup, hak, ih]
      · simp [mapSet, mapLookup, hak, ih, hk]

theorem mapKeys_mapSet_nodup (m : GoMap) (k v : GoString) (h : (mapKeys m).Nodup) :
    (mapKeys (mapSet m k v)).Nodup := by
  have hmem : ∀ (m : GoMap) (x : GoString), x ∈ mapKeys (mapSet m k v) → x ∈ mapKeys m ∨ x = k := by
    intro m
    induction m with
    | nil => intro x hx; simpa [mapSet, mapKeys] using hx
    | cons e rest ih =>
      obtain ⟨a, b⟩ := e
      intro x hx
      by_cases hak : a = k
      · simp [mapSet, mapKeys, hak] at hx ⊢
        rcases hx with hx | hx
        · exact Or.inl (Or.inl hx)
        · obtain ⟨w, hw⟩ := hx
          exact Or.inl (Or.inr ⟨w, hw⟩)
      · simp only [mapSet, hak, if_false, mapKeys, List.map_cons, List.mem_cons] at hx ⊢
        rcases hx with hx | hx
        · exact Or.inl (Or.inl hx)
        · rcases ih x hx with h1 | h1
          · exact Or.inl (Or.inr h1)
          · exact Or.inr h1
  induction m with
  | nil => simp [mapSet, mapKeys]
  | cons e rest ih =>
    obtain ⟨a, b⟩ := e
    simp only [mapKeys, List.map_cons, List.nodup_cons] at h
    by_cases hak : a = k
    · simp only [mapSet, hak, if_true, mapKeys, List.map_cons, List.nodup_cons]
      exact ⟨hak ▸ h.1, h.2⟩
    · simp only [mapSet, hak, if_false, mapKeys, List.map_cons, List.nodup_cons]
      refine ⟨fun hx => ?_, ih h.2⟩
      rcases hmem rest a hx with h1 | h1
      · exact h.1 h1
      · exact hak h1

/-- The mapping `meta.All` returns has pairwise distinct keys, as a Go map has. -/
theorem All_nodup (ctx : Context) : (mapKeys (All ctx)).Nodup := by
  induction ctx with
  | Background => simp [All, mapKeys]
  | node parent key value ih => exact mapKeys_mapSet_nodup _ _ _ ih

theorem mapLookup_of_mem (m : GoMap) (h : (mapKeys m).Nodup) (k v : GoString)
    (hmem : (k, v) ∈ m) : mapLookup m k = some v := by
  induction m with
  | nil => cases hmem
  | cons e rest ih =>
    obtain ⟨a, b⟩ := e
    simp only [mapKeys, List.map_cons, List.nodup_cons] at h
    rcases List.mem_cons.1 hmem with heq | hrest
    · cases heq
      simp [mapLookup]
    · have hne : a ≠ k := by
        intro hak
        apply h.1
        rw [hak]
        exact List.mem_map_of_mem Prod.fst hrest
      simp only [mapLookup, hne, if_false]
      exact ih h.2 hrest

theorem mapGet_of_mem (m : GoMap) (h : (mapKeys m).Nodup) (k v : GoString)
    (hmem : (k, v) ∈ m) : mapGet m k = v := by
  simp [mapGet, mapLookup_of_mem m h k v hmem]

/-! ## The formatter: the loop -/

theorem str_append (a b : String) : str (a ++ b) = str a ++ str b := by
  simp [str, String.data_append]

theorem formatStep_eq (m : GoMap) (n : Nat) (s : GoString) (i : Nat) (k : GoString) :
    formatStep m n s i k
      = s ++ entryText (k, mapGet m k) ++ (if i + 1 < n then str ", " else []) := by
  have h1 : str "\":" = str "\"" ++ str ":" := by decide
  have h2 : str "\":\"" = str "\"" ++ str ":" ++ str "\"" := by decide
  by_cases hk : k = KeyStack <;> by_cases hi : i + 1 < n <;>
    simp [formatStep, entryText, hk, hi, h1, h2]

theorem formatLoop_eq (m : GoMap) (n : Nat) (ks : List GoString) (i : Nat) (s : GoString)
    (hn : n = i + ks.length) :
    formatLoop m n ks i s
      = s ++ List.intercalate (str ", ") (ks.map (fun k => entryText (k, mapGet m k))) := by
  induction ks generalizing i s with
  | nil => simp [formatLoop, List.intercalate]
  | cons k rest ih =>
    rw [formatLoop, ih (i + 1) _ (by simp at hn; omega), formatStep_eq]
    cases rest with
    | nil =>
      have hi : ¬ (i + 1 < n) := by simp at hn; omega
      simp [hi, List.intercalate]
    | cons k2 rest2 =>
      have hi : i + 1 < n := by simp at hn; omega
      simp [hi, List.intercalate]

/-- The output of `JSONFormatter`, entry by entry over the sorted keys. -/
theorem JSONFormatter_eq (m : GoMap) :
    JSONFormatter m
      = str "\x7b "
        ++ List.intercalate (str ", ")
            ((sortStrings (mapKeys m)).map (fun k => entryText (k, mapGet m k)))
        ++ str " \x7d" := by
  unfold JSONFormatter
  simp only
  rw [formatLoop_eq m _ _ 0 _ (by simp)]

/-- A listing of the entries of a mapping in strictly increasing order of key
has the sorted keys as its keys, and determines the line. -/
theorem JSONFormatter_of_sorted (m es : GoMap) (hperm : es.Perm m)
    (hsorted : es.Pairwise (fun a b => a.1 < b.1)) :
    sortStrings (mapKeys m) = mapKeys es ∧ JSONFormatter m = lineText es := by
  have hkeys : (mapKeys es).Pairwise (· < ·) := by
    simpa [mapKeys, List.pairwise_map] using hsorted
  have hnodupEs : (mapKeys es).Nodup := hkeys.imp (fun h => ne_of_lt h)
  have hnodup : (mapKeys m).Nodup := (hperm.map Prod.fst).nodup_iff.1 hnodupEs
  have hsort : sortStrings (mapKeys m) = mapKeys es :=
    sortStrings_eq_of_perm_of_sorted _ _ (hperm.map Prod.fst) (hkeys.imp (fun h => le_of_lt h))
  refine ⟨hsort, ?_⟩
  rw [JSONFormatter_eq, hsort, lineText]
  congr 3
  simp only [mapKeys, List.map_map]
  apply List.map_congr_left
  intro e he
  obtain ⟨k, v⟩ := e
  simp only [Function.comp]
  rw [mapGet_of_mem m hnodup k v (hperm.subset he)]


/-- Every mapping has a listing of its entries in strictly increasing order of
key. -/
theorem exists_sorted_listing (m : GoMap) (hm : (mapKeys m).Nodup) :
    ∃ es : GoMap, es.Perm m ∧ es.Pairwise (fun a b => stringLess a.1 b.1 = true) := by
  refine ⟨(sortStrings (mapKeys m)).map (fun k => (k, mapGet m k)), ?_, ?_⟩
  · have hmap : (mapKeys m).map (fun k => (k, mapGet m k)) = m := by
      simp only [mapKeys, List.map_map]
      conv_rhs => rw [← List.map_id m]
      apply List.map_congr_left
      intro e he
      obtain ⟨k, v⟩ := e
      simp only [Function.comp, id]
      rw [mapGet_of_mem m hm k v he]
    have hp := (sortStrings_perm (mapKeys m)).map (fun k => (k, mapGet m k))
    rw [hmap] at hp
    exact hp
  · rw [List.pairwise_map]
    have hnodup : (sortStrings (mapKeys m)).Nodup := (sortStrings_perm _).nodup_iff.2 hm
    have hlt : (sortStrings (mapKeys m)).Sorted (· < ·) :=
      (sortStrings_sorted _).lt_of_le hnodup
    exact hlt.imp (fun h => (stringLess_iff_lt _ _).2 h)

theorem pairwise_less_iff (es : GoMap) :
    es.Pairwise (fun a b => stringLess a.1 b.1 = true) ↔ es.Pairwise (fun a b => a.1 < b.1) := by
  simp only [stringLess_iff_lt]

/-! ## The merge loop of `Log` -/

theorem callSitePairs_eq_range' (kvs : List GoString) :
    callSitePairs kvs
      = (List.range' 0 (kvs.length / 2)).map
          (fun j => (kvs.getD (2 * j) [], kvs.getD (2 * j + 1) [])) := by
  simp [callSitePairs, List.range_eq_range']

/-- With fuel enough to reach the end, the loop assigns the remaining pairs in
order. -/
theorem mergeLoop_eq_foldl (kvs : List GoString) (fuel j : Nat) (m : GoMap)
    (hfuel : kvs.length / 2 ≤ fuel + j) :
    mergeLoop kvs fuel (2 * j + 1) m
      = ((List.range' j (kvs.length / 2 - j)).map
          (fun j => (kvs.getD (2 * j) [], kvs.getD (2 * j + 1) []))).foldl
          (fun acc p => mapSet acc p.1 p.2) m := by
  induction fuel generalizing j m with
  | zero =>
    have h0 : kvs.length / 2 - j = 0 := by omega
    simp [mergeLoop, h0]
  | succ fuel ih =>
    by_cases hlt : 2 * j + 1 < kvs.length
    · have hstep : kvs.length / 2 - j = (kvs.length / 2 - (j + 1)) + 1 := by omega
      have hidx : 2 * j + 1 + 2 = 2 * (j + 1) + 1 := by ring
      rw [mergeLoop, if_pos hlt]
      simp only [Nat.add_sub_cancel]
      rw [hidx, ih (j + 1) _ (by omega), hstep, List.range'_succ]
      simp
    · have h0 : kvs.length / 2 - j = 0 := by omega
      rw [mergeLoop, if_neg hlt]
      simp [h0]

/-- The loop terminates within `len(kvs)` iterations and assigns every
call-site pair, in order. -/
theorem merged_eq_foldl (ctx : Context) (kvs : List GoString) :
    merged ctx kvs
      = (callSitePairs kvs).foldl (fun acc p => mapSet acc p.1 p.2) (All ctx) := by
  have h := mergeLoop_eq_foldl kvs kvs.length 0 (All ctx) (by omega)
  simp only [Nat.mul_zero, Nat.zero_add, Nat.sub_zero] at h
  rw [merged, h, callSitePairs_eq_range']

theorem mapLookup_foldl_mapSet (base : GoMap) (pairs : List (GoString × GoString))
    (k : GoString) :
    mapLookup (pairs.foldl (fun acc p => mapSet acc p.1 p.2) base) k
      = overlayLookup base pairs k := by
  induction pairs using List.reverseRecOn with
  | nil => simp [overlayLookup, mapLookup]
  | append_singleton ps p ih =>
    rw [List.foldl_append]
    simp only [List.foldl_cons, List.foldl_nil]
    rw [mapLookup_mapSet, ih]
    simp only [overlayLookup, List.reverse_append, List.reverse_cons, List.reverse_nil,
      List.nil_append, List.singleton_append, mapLookup]
    by_cases hk : p.1 = k <;> simp [hk]

theorem mapLookup_merged (ctx : Context) (kvs : List GoString) (k : GoString) :
    mapLookup (merged ctx kvs) k = overlayLookup (All ctx) (callSitePairs kvs) k := by
  rw [merged_eq_foldl, mapLookup_foldl_mapSet]

theorem mapLookup_eq_none_of_forall_ne (ps : GoMap) (k : GoString)
    (h : ∀ p ∈ ps, p.1 ≠ k) : mapLookup ps k = none := by
  induction ps with
  | nil => rfl
  | cons p rest ih =>
    obtain ⟨a, b⟩ := p
    have ha : a ≠ k := h (a, b) (List.mem_cons_self _ _)
    simp only [mapLookup, ha, if_false]
    exact ih (fun q hq => h q (List.mem_cons_of_mem _ hq))

/-- Reading a list of pairs from its end finds the pair at index `j` when no
later pair has the same key. -/
theorem mapLookup_reverse_of_last (ps : GoMap) (j : Nat) (hj : j < ps.length)
    (hlast : ∀ j2, j < j2 → j2 < ps.length → (ps.getD j2 ([], [])).1 ≠ (ps.getD j ([], [])).1) :
    mapLookup ps.reverse (ps.getD j ([], [])).1 = some (ps.getD j ([], [])).2 := by
  induction ps using List.reverseRecOn with
  | nil => simp at hj
  | append_singleton qs q ih =>
    rw [List.reverse_append]
    simp only [List.reverse_cons, List.reverse_nil, List.nil_append, List.singleton_append]
    obtain ⟨a, b⟩ := q
    by_cases hjl : j < qs.length
    · have hget : ∀ i, i < qs.length → (qs ++ [(a, b)]).getD i ([], []) = qs.getD i ([], []) := by
        intro i hi
        simp [List.getD_eq_getElem?_getD, List.getElem?_append_left hi]
      have hlastq : (qs ++ [(a, b)]).getD qs.length ([], []) = (a, b) := by
        simp [List.getD_eq_getElem?_getD]
      have hne : a ≠ (qs.getD j ([], [])).1 := by
        have := hlast qs.length hjl (by simp)
        rw [hlastq, hget j hjl] at this
        exact this
      rw [hget j hjl]
      simp only [mapLookup, hne, if_false]
      apply ih hjl
      intro j2 h1 h2
      have := hlast j2 h1 (by simp; omega)
      rw [hget j2 h2, hget j hjl] at this
      exact this
    · have hjeq : j = qs.length := by
        simp at hj
        omega
      subst hjeq
      have hlastq : (qs ++ [(a, b)]).getD qs.length ([], []) = (a, b) := by
        simp [List.getD_eq_getElem?_getD]
      rw [hlastq]
      simp [mapLookup]

theorem callSitePairs_length (kvs : List GoString) :
    (callSitePairs kvs).length = kvs.length / 2 := by
  simp [callSitePairs]

theorem callSitePairs_getD (kvs : List GoString) (j : Nat) (hj : j < kvs.length / 2) :
    (callSitePairs kvs).getD j ([], []) = (kvs.getD (2 * j) [], kvs.getD (2 * j + 1) []) := by
  simp [callSitePairs, List.getD_eq_getElem?_getD, List.getElem?_map, List.getElem?_range hj]

/-! ## The formatter: claims -/

/-- C1: for every mapping `m`, `JSONFormatter m` is `{ `, then the entries of
`m` in ascending byte-wise lexicographic order of key joined by `, `, then
` }`; the entry of key `k` and value `v` is `"k":"v"`, and `"k":v` for the key
`stack`, keys and values being copied byte for byte.  The entries of `m` have
such an ascending listing, and whichever listing `es` of them is ascending,
the output is the line of `es`. -/
theorem JSONFormatter_line_format (m : GoMap) (hm : (mapKeys m).Nodup) :
    (∃ es : GoMap, es.Perm m ∧ es.Pairwise (fun a b => stringLess a.1 b.1 = true)) ∧
    ∀ es : GoMap, es.Perm m → es.Pairwise (fun a b => stringLess a.1 b.1 = true) →
      JSONFormatter m
        = str "\x7b " ++ List.intercalate (str ", ") (es.map entryText) ++ str " \x7d" := by
  refine ⟨exists_sorted_listing m hm, ?_⟩
  intro es hperm hsorted
  exact (JSONFormatter_of_sorted m es hperm ((pairwise_less_iff es).1 hsorted)).2

theorem JSONFormatter_line_format_witness :
    (mapKeys [(str "b", str "2"), (str "stack", str "\x7b\x7d"), (str "a", str "1")]).Nodup ∧
    JSONFormatter [(str "b", str "2"), (str "stack", str "\x7b\x7d"), (str "a", str "1")]
      = str "\x7b \"a\":\"1\", \"b\":\"2\", \"stack\":\x7b\x7d \x7d" := by
  refine ⟨by decide, ?_⟩
  have h := (JSONFormatter_line_format
      [(str "b", str "2"), (str "stack", str "\x7b\x7d"), (str "a", str "1")] (by decide)).2
      [(str "a", str "1"), (str "b", str "2"), (str "stack", str "\x7b\x7d")]
      (by decide) (by decide)
  rw [h]
  decide

/-- C2: `JSONFormatter` quotes every value except the one at the key `stack`,
which it emits verbatim and unvalidated: for every `v` the mapping `{stack: v}`
gives `{ "stack":v }`, and for every key `k` other than `stack` the mapping
`{k: v}` gives `{ "k":"v" }`; with `v` the text `{"a":1}` the output contains
`"stack":{"a":1}`. -/
theorem JSONFormatter_stack_unquoted :
    (∀ v : GoString,
      JSONFormatter [(str "stack", v)] = str "\x7b \"stack\":" ++ v ++ str " \x7d") ∧
    (∀ k v : GoString, k ≠ str "stack" →
      JSONFormatter [(k, v)] = str "\x7b \"" ++ k ++ str "\":\"" ++ v ++ str "\" \x7d") ∧
    str "\"stack\":\x7b\"a\":1\x7d" <:+: JSONFormatter [(str "stack", str "\x7b\"a\":1\x7d")] := by
  have hone : ∀ k v : GoString, JSONFormatter [(k, v)]
      = str "\x7b " ++ entryText (k, v) ++ str " \x7d" := by
    intro k v
    rw [(JSONFormatter_of_sorted [(k, v)] [(k, v)] (List.Perm.refl _) (by simp)).2]
    simp [lineText, List.intercalate]
  have hstack : ∀ v : GoString,
      JSONFormatter [(str "stack", v)] = str "\x7b \"stack\":" ++ v ++ str " \x7d" := by
    intro v
    have h1 : str "\x7b \"stack\":" = str "\x7b " ++ (str "\"" ++ str "stack" ++ str "\":") := by
      decide
    rw [hone, h1]
    simp [entryText, KeyStack]
  refine ⟨hstack, ?_, ?_⟩
  · intro k v hk
    have h1 : str "\x7b \"" = str "\x7b " ++ str "\"" := by decide
    have h2 : str "\" \x7d" = str "\"" ++ str " \x7d" := by decide
    rw [hone, h1, h2]
    simp [entryText, KeyStack, hk]
  · rw [hstack]
    exact ⟨str "\x7b ", str " \x7d", by decide⟩

theorem JSONFormatter_stack_unquoted_witness :
    str "msg" ≠ str "stack" ∧
    JSONFormatter [(str "msg", str "\x7b\"a\":1\x7d")]
      = str "\x7b \"msg\":\"\x7b\"a\":1\x7d\" \x7d" := by
  refine ⟨by decide, ?_⟩
  rw [JSONFormatter_stack_unquoted.2.1 (str "msg") (str "\x7b\"a\":1\x7d") (by decide)]
  decide

/-- C9: the output of `JSONFormatter` does not depend on the order of the
entries: two lists of entries with pairwise distinct keys that hold the same
key-value pairs give the same bytes, and that output is the line of a listing
of the entries whose keys are strictly ascending in byte-wise lexicographic
order; formatting the same mapping twice gives the same string. -/
theorem JSONFormatter_order_independent (m1 m2 : GoMap) (h1 : (mapKeys m1).Nodup)
    (h2 : (mapKeys m2).Nodup) (hsame : ∀ e, e ∈ m1 ↔ e ∈ m2) :
    JSONFormatter m1 = JSONFormatter m2 ∧
    JSONFormatter m1 = JSONFormatter m1 ∧
    ∃ es : GoMap, es.Perm m1 ∧ es.Perm m2 ∧
      es.Pairwise (fun a b => stringLess a.1 b.1 = true) ∧
      JSONFormatter m2
        = str "\x7b " ++ List.intercalate (str ", ") (es.map entryText) ++ str " \x7d" := by
  have hperm : m1.Perm m2 :=
    (List.perm_ext_iff_of_nodup (List.Nodup.of_map _ h1) (List.Nodup.of_map _ h2)).2 hsame
  obtain ⟨es, hes, hsorted⟩ := exists_sorted_listing m1 h1
  have hlt := (pairwise_less_iff es).1 hsorted
  have e1 := (JSONFormatter_of_sorted m1 es hes hlt).2
  have e2 := (JSONFormatter_of_sorted m2 es (hes.trans hperm) hlt).2
  refine ⟨e1.trans e2.symm, rfl, es, hes, hes.trans hperm, hsorted, ?_⟩
  rw [e2, lineText]

theorem JSONFormatter_order_independent_witness :
    (mapKeys [(str "b", str "2"), (str "a", str "1")]).Nodup ∧
    (mapKeys [(str "a", str "1"), (str "b", str "2")]).Nodup ∧
    JSONFormatter [(str "b", str "2"), (str "a", str "1")]
      = JSONFormatter [(str "a", str "1"), (str "b", str "2")] :=
  ⟨by decide, by decide,
    (JSONFormatter_order_independent [(str "b", str "2"), (str "a", str "1")]
      [(str "a", str "1"), (str "b", str "2")] (by decide) (by decide)
      (by intro e; simp only [List.mem_cons, List.mem_singleton, List.not_mem_nil, or_false];
          exact or_comm)).1⟩



/-! ## `New` -/

theorem New_formatter {σ : Type} (d : Defaults σ) (config : Config σ) :
    (New d config).1.formatter = config.Formatter.getD d.DefaultFormatter := by
  obtain ⟨c, f, fm, t, w⟩ := config
  cases c <;> cases f <;> cases fm <;> cases t <;> cases w <;> simp [New]

/-! ## `Log`: claims -/

/-- C3: for every context and every even-length argument list, the filter is
applied once, to the mapping `All(ctx)` overlaid with the pairs
`(kvs[0],kvs[1]), (kvs[2],kvs[3]), ...` in order.  Every pair counts: the key
of pair `j` maps to the value of pair `j` unless a later pair has the same key
(so a call-site key overrides the ambient value and the last duplicate wins),
and a key no pair names keeps its ambient value. -/
theorem Log_filter_receives_overlay {σ : Type} (l : Logger σ) (st : σ) (ctx : Context)
    (kvs : List GoString) (heven : kvs.length % 2 = 0) :
    filterArgs (l.Log st ctx kvs).trace = [merged ctx kvs] ∧
    (∀ k, mapLookup (merged ctx kvs) k = overlayLookup (All ctx) (callSitePairs kvs) k) ∧
    (∀ j, 2 * j + 1 < kvs.length →
      (∀ j2, j < j2 → 2 * j2 + 1 < kvs.length → kvs.getD (2 * j2) [] ≠ kvs.getD (2 * j) []) →
      mapLookup (merged ctx kvs) (kvs.getD (2 * j) []) = some (kvs.getD (2 * j + 1) [])) ∧
    (∀ k, (∀ j, 2 * j + 1 < kvs.length → kvs.getD (2 * j) [] ≠ k) →
      mapLookup (merged ctx kvs) k = mapLookup (All ctx) k) := by
  refine ⟨?_, mapLookup_merged ctx kvs, ?_, ?_⟩
  · unfold Logger.Log
    simp only [heven, ne_eq, not_true_eq_false, if_false]
    by_cases hf : l.filter (merged ctx kvs) = true
    · simp [hf, filterArgs]
    · simp only [hf, if_false]
      cases (Fprintln l.writer st
        (l.formatter (mapSet (mapSet (merged ctx kvs) KeyCaller (l.caller ())) KeyTime
          (l.timer ())))).2 <;> simp [filterArgs]
  · intro j hj hlast
    have hjp : j < (callSitePairs kvs).length := by
      rw [callSitePairs_length]; omega
    have h := mapLookup_reverse_of_last (callSitePairs kvs) j hjp (by
      intro j2 h1 h2
      rw [callSitePairs_length] at h2
      rw [callSitePairs_getD kvs j2 h2, callSitePairs_getD kvs j (by omega)]
      exact hlast j2 h1 (by omega))
    rw [callSitePairs_getD kvs j (by omega)] at h
    rw [mapLookup_merged, overlayLookup, h]
  · intro k hk
    have h : mapLookup (callSitePairs kvs).reverse k = none := by
      apply mapLookup_eq_none_of_forall_ne
      intro p hp
      rw [List.mem_reverse, callSitePairs, List.mem_map] at hp
      obtain ⟨j, hj, rfl⟩ := hp
      rw [List.mem_range] at hj
      exact hk j (by omega)
    rw [mapLookup_merged, overlayLookup, h]

theorem Log_filter_receives_overlay_witness :
    [str "level", str "error", str "message", str "foo"].length % 2 = 0 ∧
    filterArgs
        ((testLogger.Log []
          (Add (Add Context.Background (str "foo") (str "bar")) (str "key") (str "val"))
          [str "level", str "error", str "message", str "foo"]).trace)
      = [[(str "foo", str "bar"), (str "key", str "val"), (str "level", str "error"),
          (str "message", str "foo")]] := by
  refine ⟨by decide, ?_⟩
  rw [(Log_filter_receives_overlay testLogger []
      (Add (Add Context.Background (str "foo") (str "bar")) (str "key") (str "val"))
      [str "level", str "error", str "message", str "foo"] (by decide)).1]
  decide

/-- C4: in every even-length call the filter does not suppress, the formatter
is applied once, to a mapping that has the caller resolver's output at `caller`
and the timer's output at `time`, whatever the ambient metadata or the
call-site pairs gave those keys, and that agrees with the merged mapping
(`All(ctx)` overlaid with the call-site pairs) at every other key, `stack`
included. -/
theorem Log_injects_caller_and_time {σ : Type} (l : Logger σ) (st : σ) (ctx : Context)
    (kvs : List GoString) (heven : kvs.length % 2 = 0)
    (hpass : l.filter (merged ctx kvs) = false) :
    ∃ mf : GoMap, formatterArgs (l.Log st ctx kvs).trace = [mf] ∧
      mapLookup mf (str "caller") = some (l.caller ()) ∧
      mapLookup mf (str "time") = some (l.timer ()) ∧
      (∀ k, k ≠ str "caller" → k ≠ str "time" →
        mapLookup mf k = mapLookup (merged ctx kvs) k ∧
        mapLookup mf k = overlayLookup (All ctx) (callSitePairs kvs) k) ∧
      mapLookup mf (str "stack") = mapLookup (merged ctx kvs) (str "stack") := by
  have hct : KeyCaller ≠ KeyTime := by decide
  have hother : ∀ k, k ≠ str "caller" → k ≠ str "time" →
      mapLookup (mapSet (mapSet (merged ctx kvs) KeyCaller (l.caller ())) KeyTime (l.timer ())) k
        = mapLookup (merged ctx kvs) k := by
    intro k h1 h2
    have h1b : KeyCaller ≠ k := fun h => h1 h.symm
    have h2b : KeyTime ≠ k := fun h => h2 h.symm
    simp [mapLookup_mapSet, h1b, h2b]
  refine ⟨mapSet (mapSet (merged ctx kvs) KeyCaller (l.caller ())) KeyTime (l.timer ()),
    ?_, ?_, ?_, ?_, ?_⟩
  · unfold Logger.Log
    simp only [heven, ne_eq, not_true_eq_false, if_false, hpass, Bool.false_eq_true]
    cases (Fprintln l.writer st
      (l.formatter (mapSet (mapSet (merged ctx kvs) KeyCaller (l.caller ())) KeyTime
        (l.timer ())))).2 <;> simp [formatterArgs]
  · have h : KeyTime ≠ str "caller" := by decide
    have h2 : KeyCaller = str "caller" := rfl
    simp [mapLookup_mapSet, h, h2]
  · have h2 : KeyTime = str "time" := rfl
    simp [mapLookup_mapSet, h2]
  · intro k h1 h2
    exact ⟨hother k h1 h2, (hother k h1 h2).trans (mapLookup_merged ctx kvs k)⟩
  · exact hother (str "stack") (by decide) (by decide)

theorem Log_injects_caller_and_time_witness :
    [str "caller", str "mine", str "stack", str "\x7b\x7d"].length % 2 = 0 ∧
    testLogger.filter (merged (Add Context.Background (str "time") (str "then"))
      [str "caller", str "mine", str "stack", str "\x7b\x7d"]) = false ∧
    ∃ mf : GoMap,
      formatterArgs
          ((testLogger.Log [] (Add Context.Background (str "time") (str "then"))
            [str "caller", str "mine", str "stack", str "\x7b\x7d"]).trace) = [mf] ∧
      mapLookup mf (str "caller") = some (str "logger_test.go:129") ∧
      mapLookup mf (str "time") = some (str "time") ∧
      mapLookup mf (str "stack") = some (str "\x7b\x7d") := by
  refine ⟨by decide, by decide, ?_⟩
  obtain ⟨mf, h1, h2, h3, -, h5⟩ := Log_injects_caller_and_time testLogger []
      (Add Context.Background (str "time") (str "then"))
      [str "caller", str "mine", str "stack", str "\x7b\x7d"] (by decide) (by decide)
  exact ⟨mf, h1, h2, h3, h5.trans (by decide)⟩

/-- C5: for every context and every odd-length argument list, when the write
to the sink succeeds, `Log` makes exactly one write, of the notice
`given key-value pairs must be complete for logging` followed by a newline,
and returns normally; neither the filter nor the formatter is applied, whatever
the filter would decide. -/
theorem Log_odd_writes_notice {σ : Type} (l : Logger σ) (st : σ) (ctx : Context)
    (kvs : List GoString) (hodd : kvs.length % 2 = 1)
    (hok : (l.writer.Write st
      (str "given key-value pairs must be complete for logging\n")).2 = none) :
    (l.Log st ctx kvs).sink
      = (l.writer.Write st (str "given key-value pairs must be complete for logging\n")).1 ∧
    (l.Log st ctx kvs).trace
      = [Event.write (str "given key-value pairs must be complete for logging\n")] ∧
    writes (l.Log st ctx kvs).trace
      = [str "given key-value pairs must be complete for logging\n"] ∧
    filterArgs (l.Log st ctx kvs).trace = [] ∧
    formatterArgs (l.Log st ctx kvs).trace = [] ∧
    (l.Log st ctx kvs).panic = none := by
  have hline : incompleteNotice ++ str "\n"
      = str "given key-value pairs must be complete for logging\n" := by decide
  have hne : kvs.length % 2 ≠ 0 := by omega
  unfold Logger.Log
  simp only [hne, ne_eq, not_false_eq_true, if_true, Fprintln, hline, hok]
  simp [writes, filterArgs, formatterArgs]

theorem Log_odd_writes_notice_witness :
    [str "level", str "error", str "message"].length % 2 = 1 ∧
    (testLogger.Log (str "earlier line\n") Context.Background
        [str "level", str "error", str "message"]).sink
      = str "earlier line\ngiven key-value pairs must be complete for logging\n" := by
  refine ⟨by decide, ?_⟩
  rw [(Log_odd_writes_notice testLogger (str "earlier line\n") Context.Background
      [str "level", str "error", str "message"] (by decide) (by decide)).1]
  decide

/-- C6: in every even-length call whose merged mapping the filter suppresses
(the filter returns `true`), the sink is left as it was: no write is made, the
formatter is not applied, and `Log` returns normally. -/
theorem Log_suppressed_leaves_sink {σ : Type} (l : Logger σ) (st : σ) (ctx : Context)
    (kvs : List GoString) (heven : kvs.length % 2 = 0)
    (hsupp : l.filter (merged ctx kvs) = true) :
    (l.Log st ctx kvs).sink = st ∧
    (l.Log st ctx kvs).trace = [Event.filter (merged ctx kvs)] ∧
    writes (l.Log st ctx kvs).trace = [] ∧
    formatterArgs (l.Log st ctx kvs).trace = [] ∧
    (l.Log st ctx kvs).panic = none := by
  unfold Logger.Log
  simp [heven, hsupp, writes, formatterArgs]

theorem Log_suppressed_leaves_sink_witness :
    [str "level", str "debug", str "message", str "foo"].length % 2 = 0 ∧
    testLogger.filter
      (merged Context.Background [str "level", str "debug", str "message", str "foo"]) = true ∧
    (testLogger.Log (str "earlier line\n") Context.Background
        [str "level", str "debug", str "message", str "foo"]).sink = str "earlier line\n" :=
  ⟨by decide, by decide,
    (Log_suppressed_leaves_sink testLogger (str "earlier line\n") Context.Background
      [str "level", str "debug", str "message", str "foo"] (by decide) (by decide)).1⟩

/-- C8, as amended: whenever the write to the sink fails, be it the write of
the notice of a malformed call or the write of the formatted line, `Log` does
not swallow the failure and does nothing further: it ends in `panic(err)`, the
value of the panic being the error of the write.  The call does not return, so
the error reaches the caller as a panic and not as a value the call returns;
indeed no call of `Log` returns an error. -/
theorem Log_write_failure_panics {σ : Type} (l : Logger σ) (st : σ) (ctx : Context)
    (kvs : List GoString) (err : Error) :
    (kvs.length % 2 ≠ 0 →
      (l.writer.Write st
        (str "given key-value pairs must be complete for logging\n")).2 = some err →
      (l.Log st ctx kvs).panic = some err ∧
      (l.Log st ctx kvs).returned = none ∧
      (l.Log st ctx kvs).trace
        = [Event.write (str "given key-value pairs must be complete for logging\n")]) ∧
    (kvs.length % 2 = 0 → l.filter (merged ctx kvs) = false →
      (l.writer.Write st
        (l.formatter
          (mapSet (mapSet (merged ctx kvs) (str "caller") (l.caller ())) (str "time")
            (l.timer ())) ++ str "\n")).2 = some err →
      (l.Log st ctx kvs).panic = some err ∧
      (l.Log st ctx kvs).returned = none ∧
      (l.Log st ctx kvs).trace.getLast?
        = some (Event.write (l.formatter
          (mapSet (mapSet (merged ctx kvs) (str "caller") (l.caller ())) (str "time")
            (l.timer ())) ++ str "\n"))) ∧
    ∀ e : Error, ¬ returnsError (l.Log st ctx kvs) e := by
  have hline : incompleteNotice ++ str "\n"
      = str "given key-value pairs must be complete for logging\n" := by decide
  refine ⟨?_, ?_, ?_⟩
  · intro hodd hw
    unfold Logger.Log
    simp only [hodd, ne_eq, not_false_eq_true, if_true, Fprintln, hline, hw, and_self,
      LogResult.returned]
  · intro heven hpass hw
    have hw2 : (l.writer.Write st
        (l.formatter (mapSet (mapSet (merged ctx kvs) KeyCaller (l.caller ())) KeyTime
            (l.timer ())) ++ str "\n")).2 = some err := hw
    unfold Logger.Log
    simp only [heven, ne_eq, not_true_eq_false, if_false, hpass, Bool.false_eq_true, Fprintln,
      hw2, true_and, LogResult.returned]
    rfl
  · intro e hret
    obtain ⟨results, hres, hmem⟩ := hret
    unfold LogResult.returned at hres
    cases hp : (l.Log st ctx kvs).panic with
    | none =>
      rw [hp] at hres
      simp only [Option.some.injEq] at hres
      rw [← hres] at hmem
      cases hmem
    | some err2 =>
      rw [hp] at hres
      cases hres

theorem Log_write_failure_panics_witness :
    ([str "level", str "error", str "message"].length % 2 ≠ 0 ∧
      (Logger.Log { testLogger with writer := failingWriter "disk full" } []
        Context.Background [str "level", str "error", str "message"]).panic
        = some "disk full") ∧
    ([str "level", str "error"].length % 2 = 0 ∧
      (Logger.Log { testLogger with writer := failingWriter "disk full" } []
        Context.Background [str "level", str "error"]).panic = some "disk full") :=
  ⟨⟨by decide,
    ((Log_write_failure_panics { testLogger with writer := failingWriter "disk full" } []
      Context.Background [str "level", str "error", str "message"] "disk full").1
      (by decide) rfl).1⟩,
   ⟨by decide,
    ((Log_write_failure_panics { testLogger with writer := failingWriter "disk full" } []
      Context.Background [str "level", str "error"] "disk full").2.1
      (by decide) (by decide) rfl).1⟩⟩

/-- C8, as the claim states it, fails: with a sink whose write fails with the
error `disk full`, neither the call with an odd number of arguments nor the
call that reaches the formatted line returns that error to its caller; `Log`
has no result, and both calls end in a panic instead of returning. -/
theorem Log_write_error_is_not_returned :
    ((failingWriter "disk full").Write []
        (str "given key-value pairs must be complete for logging\n")).2 = some "disk full" ∧
    ¬ returnsError
        (Logger.Log { testLogger with writer := failingWriter "disk full" } []
          Context.Background [str "level", str "error", str "message"]) "disk full" ∧
    (Logger.Log { testLogger with writer := failingWriter "disk full" } []
        Context.Background [str "level", str "error", str "message"]).returned = none ∧
    ¬ returnsError
        (Logger.Log { testLogger with writer := failingWriter "disk full" } []
          Context.Background [str "level", str "error"]) "disk full" ∧
    (Logger.Log { testLogger with writer := failingWriter "disk full" } []
        Context.Background [str "level", str "error"]).returned = none := by
  have h1 : (Logger.Log { testLogger with writer := failingWriter "disk full" } []
      Context.Background [str "level", str "error", str "message"]).returned = none := rfl
  have h2 : (Logger.Log { testLogger with writer := failingWriter "disk full" } []
      Context.Background [str "level", str "error"]).returned = none := by decide
  refine ⟨rfl, ?_, h1, ?_, h2⟩
  · rintro ⟨results, hres, -⟩
    rw [h1] at hres
    cases hres
  · rintro ⟨results, hres, -⟩
    rw [h2] at hres
    cases hres

/-- C10: `New` never fails: for every `Config` it returns a logger and a `nil`
error, and each of the five strategies of the logger is the field of the
`Config` when that field is set and the package-level default when it is not,
each field independently of the others; the default formatter of default.go is
`JSONFormatter`. -/
theorem New_resolves_defaults {σ : Type} (d : Defaults σ) (config : Config σ) :
    (New d config).2 = none ∧
    (New d config).1.caller = config.Caller.getD d.DefaultCaller ∧
    (New d config).1.filter = config.Filter.getD d.DefaultFilter ∧
    (New d config).1.formatter = config.Formatter.getD d.DefaultFormatter ∧
    (New d config).1.timer = config.Timer.getD d.DefaultTimer ∧
    (New d config).1.writer = config.Writer.getD d.DefaultWriter ∧
    (∀ (caller timer : Unit → GoString) (stdout : Writer σ),
      (initialDefaults caller timer stdout).DefaultFormatter = JSONFormatter) := by
  obtain ⟨c, f, fm, t, w⟩ := config
  cases c <;> cases f <;> cases fm <;> cases t <;> cases w <;>
    simp [New, initialDefaults]


/-- C7: end to end.  For a logger built by `New` from a `Config` without
formatter while the default formatter is `JSONFormatter`, with a buffer as
sink, a caller resolver returning `c`, a timer returning `t` and a filter that
does not suppress the record, `Log(ctx, "level", "warning", "message", "foo")`
on a context without metadata appends exactly one line to the sink:
`{ "caller":"c", "level":"warning", "message":"foo", "time":"t" }` and a
newline. -/
theorem Log_end_to_end (d : Defaults GoString) (config : Config GoString) (c t buf : GoString)
    (hformatter : config.Formatter = none) (hdefault : d.DefaultFormatter = JSONFormatter)
    (hwriter : (New d config).1.writer = bufferWriter)
    (hcaller : (New d config).1.caller () = c)
    (htimer : (New d config).1.timer () = t)
    (hpass : (New d config).1.filter
      [(str "level", str "warning"), (str "message", str "foo")] = false) :
    ((New d config).1.Log buf Context.Background
        [str "level", str "warning", str "message", str "foo"]).sink
      = buf ++ (str "\x7b \"caller\":\"" ++ c
          ++ str "\", \"level\":\"warning\", \"message\":\"foo\", \"time\":\"" ++ t
          ++ str "\" \x7d" ++ str "\n") ∧
    writes ((New d config).1.Log buf Context.Background
        [str "level", str "warning", str "message", str "foo"]).trace
      = [str "\x7b \"caller\":\"" ++ c
          ++ str "\", \"level\":\"warning\", \"message\":\"foo\", \"time\":\"" ++ t
          ++ str "\" \x7d" ++ str "\n"] ∧
    ((New d config).1.Log buf Context.Background
        [str "level", str "warning", str "message", str "foo"]).panic = none := by
  have hfmt : (New d config).1.formatter = JSONFormatter := by
    rw [(New_formatter d config), hformatter]
    exact hdefault
  have hmerged : merged Context.Background [str "level", str "warning", str "message", str "foo"]
      = [(str "level", str "warning"), (str "message", str "foo")] := by decide
  have hk1 : str "level" ≠ KeyCaller := by decide
  have hk2 : str "message" ≠ KeyCaller := by decide
  have hk3 : str "level" ≠ KeyTime := by decide
  have hk4 : str "message" ≠ KeyTime := by decide
  have hk5 : KeyCaller ≠ KeyTime := by decide
  have hfinal : mapSet (mapSet [(str "level", str "warning"), (str "message", str "foo")]
      KeyCaller c) KeyTime t
      = [(str "level", str "warning"), (str "message", str "foo"), (KeyCaller, c),
          (KeyTime, t)] := by
    simp [mapSet, hk1, hk2, hk3, hk4, hk5]
  have hperm : [(KeyCaller, c), (str "level", str "warning"), (str "message", str "foo"),
      (KeyTime, t)].Perm
      [(str "level", str "warning"), (str "message", str "foo"), (KeyCaller, c), (KeyTime, t)] :=
    (@List.perm_middle _ (KeyCaller, c)
      [(str "level", str "warning"), (str "message", str "foo")] [(KeyTime, t)]).symm
  have hsorted : [(KeyCaller, c), (str "level", str "warning"), (str "message", str "foo"),
      (KeyTime, t)].Pairwise (fun a b => stringLess a.1 b.1 = true) := by
    simp only [List.pairwise_cons, List.mem_cons, List.mem_singleton, List.not_mem_nil,
      forall_eq_or_imp, forall_eq, List.Pairwise.nil, and_true, IsEmpty.forall_iff,
      implies_true]
    decide
  have hline : JSONFormatter
      [(str "level", str "warning"), (str "message", str "foo"), (KeyCaller, c), (KeyTime, t)]
      = str "\x7b \"caller\":\"" ++ c
          ++ str "\", \"level\":\"warning\", \"message\":\"foo\", \"time\":\"" ++ t
          ++ str "\" \x7d" := by
    rw [(JSONFormatter_of_sorted _ _ hperm ((pairwise_less_iff _).1 hsorted)).2]
    have e1 : entryText (KeyCaller, c) = str "\"caller\":\"" ++ c ++ str "\"" := by
      have h : KeyCaller ≠ KeyStack := by decide
      have h2 : str "\"caller\":\"" = str "\"" ++ KeyCaller ++ str "\":\"" := by decide
      simp [entryText, h, h2]
    have e2 : entryText (KeyTime, t) = str "\"time\":\"" ++ t ++ str "\"" := by
      have h : KeyTime ≠ KeyStack := by decide
      have h2 : str "\"time\":\"" = str "\"" ++ KeyTime ++ str "\":\"" := by decide
      simp [entryText, h, h2]
    have e3 : entryText (str "level", str "warning") = str "\"level\":\"warning\"" := by decide
    have e4 : entryText (str "message", str "foo") = str "\"message\":\"foo\"" := by decide
    have s1 : str "\x7b \"caller\":\"" = str "\x7b " ++ str "\"caller\":\"" := by decide
    have s2 : str "\", \"level\":\"warning\", \"message\":\"foo\", \"time\":\""
        = str "\"" ++ str ", " ++ str "\"level\":\"warning\"" ++ str ", "
          ++ str "\"message\":\"foo\"" ++ str ", " ++ str "\"time\":\"" := by decide
    have s3 : str "\" \x7d" = str "\"" ++ str " \x7d" := by decide
    simp only [lineText, List.map_cons, List.map_nil, e1, e2, e3, e4, s1, s2, s3,
      List.intercalate, List.intersperse, List.flatten, List.append_assoc, List.append_nil]
  have hpass2 : (New d config).1.filter
      (merged Context.Background [str "level", str "warning", str "message", str "foo"])
      = false := by
    rw [hmerged]; exact hpass
  have heven : [str "level", str "warning", str "message", str "foo"].length % 2 = 0 := by
    decide
  unfold Logger.Log
  simp only [heven, ne_eq, not_true_eq_false, if_false, hpass2, hpass, Bool.false_eq_true,
    Fprintln, hwriter, bufferWriter, hfmt, hcaller, htimer, hmerged, hfinal, hline]
  simp [writes]

theorem Log_end_to_end_witness :
    testLogger.filter [(str "level", str "warning"), (str "message", str "foo")] = false ∧
    (testLogger.Log [] Context.Background
        [str "level", str "warning", str "message", str "foo"]).sink
      = str ("\x7b \"caller\":\"logger_test.go:129\", \"level\":\"warning\", "
          ++ "\"message\":\"foo\", \"time\":\"time\" \x7d\n") := by
  refine ⟨by decide, ?_⟩
  have h := (Log_end_to_end
    (initialDefaults (fun _ => str "logger_test.go:129")
      (fun _ => str "2006-01-02 15:04:05") bufferWriter)
    { Caller := none, Filter := none, Formatter := none,
      Timer := some (fun _ => str "time"), Writer := some bufferWriter }
    (str "logger_test.go:129") (str "time") [] rfl rfl rfl rfl rfl (by decide)).1
  exact h.trans (by decide)


/-! ## `Log`: the line that is written -/

/-- The outcome of an even-length call that the filter does not suppress. -/
theorem Log_of_pass {σ : Type} (l : Logger σ) (st : σ) (ctx : Context) (kvs : List GoString)
    (heven : kvs.length % 2 = 0) (hpass : l.filter (merged ctx kvs) = false) :
    l.Log st ctx kvs
      = { sink := (l.writer.Write st
            (l.formatter (mapSet (mapSet (merged ctx kvs) KeyCaller (l.caller ())) KeyTime
              (l.timer ())) ++ str "\n")).1
          trace := [Event.filter (merged ctx kvs), Event.caller, Event.timer,
            Event.formatter (mapSet (mapSet (merged ctx kvs) KeyCaller (l.caller ())) KeyTime
              (l.timer ())),
            Event.write (l.formatter (mapSet (mapSet (merged ctx kvs) KeyCaller (l.caller ()))
              KeyTime (l.timer ())) ++ str "\n")]
          panic := (l.writer.Write st
            (l.formatter (mapSet (mapSet (merged ctx kvs) KeyCaller (l.caller ())) KeyTime
              (l.timer ())) ++ str "\n")).2 } := by
  unfold Logger.Log
  simp only [heven, ne_eq, not_true_eq_false, if_false, hpass, Bool.false_eq_true, Fprintln]
  cases h : (l.writer.Write st
      (l.formatter (mapSet (mapSet (merged ctx kvs) KeyCaller (l.caller ())) KeyTime
        (l.timer ())) ++ str "\n")).2 <;> simp

/-- The outcome of an even-length call that the filter suppresses. -/
theorem Log_of_suppressed {σ : Type} (l : Logger σ) (st : σ) (ctx : Context)
    (kvs : List GoString) (heven : kvs.length % 2 = 0)
    (hsupp : l.filter (merged ctx kvs) = true) :
    l.Log st ctx kvs
      = { sink := st, trace := [Event.filter (merged ctx kvs)], panic := none } := by
  unfold Logger.Log
  simp [heven, hsupp]

/-- The calls made in an odd-length call. -/
theorem Log_of_odd_trace {σ : Type} (l : Logger σ) (st : σ) (ctx : Context)
    (kvs : List GoString) (hodd : kvs.length % 2 ≠ 0) :
    (l.Log st ctx kvs).trace = [Event.write (incompleteNotice ++ str "\n")] := by
  unfold Logger.Log
  simp only [hodd, ne_eq, not_false_eq_true, if_true]
  cases (Fprintln l.writer st incompleteNotice).2 <;> rfl

/-- C11: in every even-length call that the filter does not suppress, exactly
one write reaches the sink, of `formatter(final mapping)` followed by one
newline, for any formatter: the state of the sink afterwards is the one that
write leaves, so a sink that appends what it is given holds its former content
extended by that one line. -/
theorem Log_writes_one_line {σ : Type} (l : Logger σ) (st : σ) (ctx : Context)
    (kvs : List GoString) (heven : kvs.length % 2 = 0)
    (hpass : l.filter (merged ctx kvs) = false) :
    formatterArgs (l.Log st ctx kvs).trace
      = [mapSet (mapSet (merged ctx kvs) (str "caller") (l.caller ())) (str "time")
          (l.timer ())] ∧
    writes (l.Log st ctx kvs).trace
      = [l.formatter (mapSet (mapSet (merged ctx kvs) (str "caller") (l.caller ()))
          (str "time") (l.timer ())) ++ str "\n"] ∧
    (l.Log st ctx kvs).sink
      = (l.writer.Write st
          (l.formatter (mapSet (mapSet (merged ctx kvs) (str "caller") (l.caller ()))
            (str "time") (l.timer ())) ++ str "\n")).1 ∧
    ∀ content : σ → GoString,
      (∀ p, content (l.writer.Write st p).1 = content st ++ p) →
      content (l.Log st ctx kvs).sink
        = content st
          ++ (l.formatter (mapSet (mapSet (merged ctx kvs) (str "caller") (l.caller ()))
            (str "time") (l.timer ())) ++ str "\n") := by
  rw [Log_of_pass l st ctx kvs heven hpass]
  refine ⟨rfl, rfl, rfl, ?_⟩
  intro content happend
  exact happend _

theorem Log_writes_one_line_witness :
    [str "level", str "error", str "message", str "foo"].length % 2 = 0 ∧
    testLogger.filter
      (merged Context.Background [str "level", str "error", str "message", str "foo"])
      = false ∧
    (testLogger.Log (str "earlier line\n") Context.Background
        [str "level", str "error", str "message", str "foo"]).sink
      = str ("earlier line\n\x7b \"caller\":\"logger_test.go:129\", \"level\":\"error\", "
          ++ "\"message\":\"foo\", \"time\":\"time\" \x7d\n") := by
  refine ⟨by decide, by decide, ?_⟩
  have h := (Log_writes_one_line testLogger (str "earlier line\n") Context.Background
    [str "level", str "error", str "message", str "foo"] (by decide) (by decide)).2.2.2
    id (fun _ => rfl)
  exact h.trans (by decide)

/-- C13: the caller resolver and the timer are each called exactly once in an
even-length call that the filter does not suppress, and not at all in an
odd-length call or in a call the filter suppresses. -/
theorem Log_calls_caller_and_timer_once {σ : Type} (l : Logger σ) (st : σ) (ctx : Context)
    (kvs : List GoString) :
    (kvs.length % 2 = 0 → l.filter (merged ctx kvs) = false →
      callerCalls (l.Log st ctx kvs).trace = 1 ∧ timerCalls (l.Log st ctx kvs).trace = 1) ∧
    (kvs.length % 2 ≠ 0 →
      callerCalls (l.Log st ctx kvs).trace = 0 ∧ timerCalls (l.Log st ctx kvs).trace = 0) ∧
    (kvs.length % 2 = 0 → l.filter (merged ctx kvs) = true →
      callerCalls (l.Log st ctx kvs).trace = 0 ∧ timerCalls (l.Log st ctx kvs).trace = 0) := by
  refine ⟨?_, ?_, ?_⟩
  · intro heven hpass
    rw [Log_of_pass l st ctx kvs heven hpass]
    exact ⟨rfl, rfl⟩
  · intro hodd
    rw [Log_of_odd_trace l st ctx kvs hodd]
    exact ⟨rfl, rfl⟩
  · intro heven hsupp
    rw [Log_of_suppressed l st ctx kvs heven hsupp]
    exact ⟨rfl, rfl⟩

theorem Log_calls_caller_and_timer_once_witness :
    ([str "level", str "info", str "message", str "foo"].length % 2 = 0 ∧
      callerCalls (testLogger.Log [] Context.Background
        [str "level", str "info", str "message", str "foo"]).trace = 1) ∧
    ([str "level", str "info", str "message"].length % 2 ≠ 0 ∧
      timerCalls (testLogger.Log [] Context.Background
        [str "level", str "info", str "message"]).trace = 0) ∧
    ([str "level", str "debug", str "message", str "foo"].length % 2 = 0 ∧
      callerCalls (testLogger.Log [] Context.Background
        [str "level", str "debug", str "message", str "foo"]).trace = 0) :=
  ⟨⟨by decide,
    ((Log_calls_caller_and_timer_once testLogger [] Context.Background
      [str "level", str "info", str "message", str "foo"]).1 (by decide) (by decide)).1⟩,
   ⟨by decide,
    ((Log_calls_caller_and_timer_once testLogger [] Context.Background
      [str "level", str "info", str "message"]).2.1 (by decide)).2⟩,
   ⟨by decide,
    ((Log_calls_caller_and_timer_once testLogger [] Context.Background
      [str "level", str "debug", str "message", str "foo"]).2.2 (by decide) (by decide)).1⟩⟩


/-! ## The default filter -/

theorem New_filter {σ : Type} (d : Defaults σ) (config : Config σ) :
    (New d config).1.filter = config.Filter.getD d.DefaultFilter := by
  obtain ⟨c, f, fm, t, w⟩ := config
  cases c <;> cases f <;> cases fm <;> cases t <;> cases w <;> simp [New]

theorem NewLevelFilter_info_of_level (m : GoMap) (level : GoString)
    (h : mapLookup m (str "level") = some level) :
    NewLevelFilter LevelInfo m = decide (level = str "debug") := by
  have h2 : mapLookup m KeyLevel = some level := h
  have hinfo : levelRank LevelInfo = some 1 := by decide
  unfold NewLevelFilter
  rw [h2]
  simp only [hinfo]
  by_cases h0 : level = LevelDebug
  · subst h0; decide
  · by_cases h1 : level = LevelInfo
    · subst h1; decide
    · by_cases h2 : level = LevelWarning
      · subst h2; decide
      · by_cases h3 : level = LevelError
        · subst h3; decide
        · have h0b : ¬ level = str "debug" := h0
          simp [levelRank, h0, h1, h2, h3, h0b]

theorem NewLevelFilter_info_of_no_level (m : GoMap) (h : mapLookup m (str "level") = none) :
    NewLevelFilter LevelInfo m = false := by
  have h2 : mapLookup m KeyLevel = none := h
  unfold NewLevelFilter
  rw [h2]

/-- C12: with the default configuration (no filter in the `Config`, so the
filter is the level filter with threshold info), an even-length call of `Log`
whose record has level debug writes nothing and leaves the sink as it was; a
record with level info, warning or error makes exactly one write, of a
formatted mapping followed by a newline; and so does a record without level
key. -/
theorem Log_default_filter_threshold {σ : Type} (caller timer : Unit → GoString)
    (stdout : Writer σ) (config : Config σ) (hconfig : config.Filter = none)
    (st : σ) (ctx : Context) (kvs : List GoString) (heven : kvs.length % 2 = 0) :
    (mapLookup (merged ctx kvs) (str "level") = some (str "debug") →
      writes ((New (initialDefaults caller timer stdout) config).1.Log st ctx kvs).trace = [] ∧
      ((New (initialDefaults caller timer stdout) config).1.Log st ctx kvs).sink = st) ∧
    (∀ level : GoString,
      level = str "info" ∨ level = str "warning" ∨ level = str "error" →
      mapLookup (merged ctx kvs) (str "level") = some level →
      ∃ m : GoMap,
        writes ((New (initialDefaults caller timer stdout) config).1.Log st ctx kvs).trace
          = [(New (initialDefaults caller timer stdout) config).1.formatter m ++ str "\n"]) ∧
    (mapLookup (merged ctx kvs) (str "level") = none →
      ∃ m : GoMap,
        writes ((New (initialDefaults caller timer stdout) config).1.Log st ctx kvs).trace
          = [(New (initialDefaults caller timer stdout) config).1.formatter m ++ str "\n"]) := by
  have hfilter : (New (initialDefaults caller timer stdout) config).1.filter
      = NewLevelFilter LevelInfo := by
    rw [New_filter, hconfig]
    rfl
  refine ⟨?_, ?_, ?_⟩
  · intro hlevel
    have hsupp : (New (initialDefaults caller timer stdout) config).1.filter (merged ctx kvs)
        = true := by
      rw [hfilter, NewLevelFilter_info_of_level _ _ hlevel]
      simp
    rw [Log_of_suppressed _ st ctx kvs heven hsupp]
    exact ⟨rfl, rfl⟩
  · intro level hcases hlevel
    have hne : level ≠ str "debug" := by
      rcases hcases with h | h | h <;> rw [h] <;> decide
    have hpass : (New (initialDefaults caller timer stdout) config).1.filter (merged ctx kvs)
        = false := by
      rw [hfilter, NewLevelFilter_info_of_level _ _ hlevel]
      simp [hne]
    rw [Log_of_pass _ st ctx kvs heven hpass]
    exact ⟨_, rfl⟩
  · intro hlevel
    have hpass : (New (initialDefaults caller timer stdout) config).1.filter (merged ctx kvs)
        = false := by
      rw [hfilter, NewLevelFilter_info_of_no_level _ hlevel]
    rw [Log_of_pass _ st ctx kvs heven hpass]
    exact ⟨_, rfl⟩

theorem Log_default_filter_threshold_witness :
    ([str "level", str "debug", str "message", str "foo"].length % 2 = 0 ∧
      mapLookup (merged Context.Background [str "level", str "debug", str "message", str "foo"])
        (str "level") = some (str "debug") ∧
      writes (testLogger.Log [] Context.Background
        [str "level", str "debug", str "message", str "foo"]).trace = []) ∧
    (mapLookup (merged Context.Background [str "level", str "info", str "message", str "foo"])
        (str "level") = some (str "info") ∧
      ∃ m : GoMap, writes (testLogger.Log [] Context.Background
        [str "level", str "info", str "message", str "foo"]).trace
          = [testLogger.formatter m ++ str "\n"]) ∧
    (mapLookup (merged Context.Background [str "message", str "foo"]) (str "level") = none ∧
      ∃ m : GoMap, writes (testLogger.Log [] Context.Background
        [str "message", str "foo"]).trace = [testLogger.formatter m ++ str "\n"]) :=
  ⟨⟨by decide, by decide,
    ((Log_default_filter_threshold (fun _ => str "logger_test.go:129")
      (fun _ => str "2006-01-02 15:04:05") bufferWriter
      { Caller := none, Filter := none, Formatter := none,
        Timer := some (fun _ => str "time"), Writer := some bufferWriter } rfl
      [] Context.Background [str "level", str "debug", str "message", str "foo"]
      (by decide)).1 (by decide)).1⟩,
   ⟨by decide,
    (Log_default_filter_threshold (fun _ => str "logger_test.go:129")
      (fun _ => str "2006-01-02 15:04:05") bufferWriter
      { Caller := none, Filter := none, Formatter := none,
        Timer := some (fun _ => str "time"), Writer := some bufferWriter } rfl
      [] Context.Background [str "level", str "info", str "message", str "foo"]
      (by decide)).2.1 (str "info") (Or.inl rfl) (by decide)⟩,
   ⟨by decide,
    (Log_default_filter_threshold (fun _ => str "logger_test.go:129")
      (fun _ => str "2006-01-02 15:04:05") bufferWriter
      { Caller := none, Filter := none, Formatter := none,
        Timer := some (fun _ => str "time"), Writer := some bufferWriter } rfl
      [] Context.Background [str "message", str "foo"] (by decide)).2.2 (by decide)⟩⟩


/-! ## The formatter: the separator, and injectivity -/

theorem intercalate_append_singleton (sep : GoString) (xs : List GoString) (x : GoString) :
    List.intercalate sep (xs ++ [x]) = xs.flatMap (fun y => y ++ sep) ++ x := by
  induction xs with
  | nil => simp [List.intercalate]
  | cons y ys ih =>
    have hstep : List.intercalate sep (y :: (ys ++ [x]))
        = y ++ sep ++ List.intercalate sep (ys ++ [x]) := by
      cases ys with
      | nil => simp [List.intercalate]
      | cons z zs => simp [List.intercalate]
    rw [List.cons_append, hstep, ih]
    simp [List.flatMap_cons]

theorem flatMap_map_entryText (es : GoMap) (sep : GoString) :
    (es.map entryText).flatMap (fun y => y ++ sep)
      = es.flatMap (fun x => entryText x ++ sep) := by
  induction es with
  | nil => rfl
  | cons x xs ih => simp only [List.map_cons, List.flatMap_cons, ih]

/-- C15: `JSONFormatter` applied to the empty mapping returns the opening `{ `
immediately followed by the closing ` }`, the four bytes `{  }`, with no quote
and no separator `, `; for a mapping with entries the separator follows every
entry except the last one, which is followed by the closing ` }`. -/
theorem JSONFormatter_empty_and_separator :
    JSONFormatter [] = str "\x7b  \x7d" ∧
    JSONFormatter [] = str "\x7b " ++ str " \x7d" ∧
    (JSONFormatter []).length = 4 ∧
    doubleQuote ∉ JSONFormatter [] ∧
    ¬ (str ", " <:+: JSONFormatter []) ∧
    ∀ (m es : GoMap) (e : GoString × GoString),
      (es ++ [e]).Perm m → (es ++ [e]).Pairwise (fun a b => stringLess a.1 b.1 = true) →
      JSONFormatter m
        = str "\x7b " ++ es.flatMap (fun x => entryText x ++ str ", ") ++ entryText e
          ++ str " \x7d" := by
  refine ⟨by decide, by decide, by decide, by decide, ?_, ?_⟩
  · have h : JSONFormatter [] = [123, 32, 32, 125] := by decide
    have h2 : str ", " = [44, 32] := by decide
    rw [h, h2]
    intro hinfix
    have hmem : (44 : Nat) ∈ [123, 32, 32, 125] := hinfix.subset (by simp)
    simp at hmem
  · intro m es e hperm hsorted
    rw [(JSONFormatter_of_sorted m (es ++ [e]) hperm ((pairwise_less_iff _).1 hsorted)).2,
      lineText, List.map_append, List.map_cons, List.map_nil, intercalate_append_singleton]
    rw [flatMap_map_entryText]
    simp only [List.append_assoc]

theorem JSONFormatter_empty_and_separator_witness :
    [(str "a", str "1"), (str "b", str "2")].Pairwise
      (fun a b => stringLess a.1 b.1 = true) ∧
    JSONFormatter [(str "b", str "2"), (str "a", str "1")]
      = str "\x7b \"a\":\"1\", \"b\":\"2\" \x7d" := by
  refine ⟨by decide, ?_⟩
  rw [JSONFormatter_empty_and_separator.2.2.2.2.2
    [(str "b", str "2"), (str "a", str "1")] [(str "a", str "1")] (str "b", str "2")
    (List.Perm.swap _ _ _) (by decide)]
  decide

/-- C17: `JSONFormatter` is not injective on arbitrary mappings, since values
are copied unescaped: the one-key mapping with `a` at the value `1", "b":"2`
and the two-key mapping with `a` at `1` and `b` at `2` are distinct mappings,
and both give `{ "a":"1", "b":"2" }`. -/
theorem JSONFormatter_not_injective :
    JSONFormatter [(str "a", str "1\", \"b\":\"2")] = str "\x7b \"a\":\"1\", \"b\":\"2\" \x7d" ∧
    JSONFormatter [(str "a", str "1"), (str "b", str "2")]
      = str "\x7b \"a\":\"1\", \"b\":\"2\" \x7d" ∧
    mapLookup [(str "a", str "1\", \"b\":\"2")] (str "b") = none ∧
    mapLookup [(str "a", str "1"), (str "b", str "2")] (str "b") = some (str "2") ∧
    ∃ m1 m2 : GoMap, (mapKeys m1).Nodup ∧ (mapKeys m2).Nodup ∧ ¬ m1.Perm m2 ∧
      (∃ k, mapLookup m1 k ≠ mapLookup m2 k) ∧ JSONFormatter m1 = JSONFormatter m2 := by
  refine ⟨by decide, by decide, by decide, by decide,
    [(str "a", str "1\", \"b\":\"2")], [(str "a", str "1"), (str "b", str "2")],
    by decide, by decide, ?_, ⟨str "b", by decide⟩, by decide⟩
  intro hperm
  have := hperm.length_eq
  simp at this


/-- A byte string is cut in one way only at the first occurrence of a byte. -/
theorem eq_of_append_cons_eq (q : Nat) (a b x y : GoString) (ha : q ∉ a) (hb : q ∉ b)
    (h : a ++ q :: x = b ++ q :: y) : a = b ∧ x = y := by
  induction a generalizing b with
  | nil =>
    cases b with
    | nil => simpa using h
    | cons c cs =>
      simp only [List.nil_append, List.cons_append, List.cons.injEq] at h
      exact absurd (h.1 ▸ List.mem_cons_self _ _) hb
  | cons c cs ih =>
    cases b with
    | nil =>
      simp only [List.nil_append, List.cons_append, List.cons.injEq] at h
      exact absurd (h.1 ▸ List.mem_cons_self _ _) ha
    | cons d ds =>
      simp only [List.cons_append, List.cons.injEq] at h
      have hrec := ih ds (fun hm => ha (List.mem_cons_of_mem _ hm))
        (fun hm => hb (List.mem_cons_of_mem _ hm)) h.2
      exact ⟨by rw [h.1, hrec.1], hrec.2⟩

theorem entryText_of_ne_stack (k v : GoString) (hk : k ≠ str "stack") :
    entryText (k, v)
      = doubleQuote :: (k ++ doubleQuote :: 58 :: doubleQuote :: (v ++ [doubleQuote])) := by
  have hk2 : k ≠ KeyStack := hk
  have h1 : str "\"" = [doubleQuote] := by decide
  have h2 : str "\":\"" = [doubleQuote, 58, doubleQuote] := by decide
  simp [entryText, hk2, h1, h2]

/-- The text of an entry without quote in key and value, followed by anything,
determines the entry and what follows. -/
theorem entryText_append_inj (e1 e2 : GoString × GoString) (t1 t2 : GoString)
    (h1 : e1.1 ≠ str "stack" ∧ doubleQuote ∉ e1.1 ∧ doubleQuote ∉ e1.2)
    (h2 : e2.1 ≠ str "stack" ∧ doubleQuote ∉ e2.1 ∧ doubleQuote ∉ e2.2)
    (h : entryText e1 ++ t1 = entryText e2 ++ t2) : e1 = e2 ∧ t1 = t2 := by
  obtain ⟨k1, v1⟩ := e1
  obtain ⟨k2, v2⟩ := e2
  rw [entryText_of_ne_stack k1 v1 h1.1, entryText_of_ne_stack k2 v2 h2.1] at h
  simp only [List.cons_append, List.append_assoc, List.cons.injEq, true_and,
    List.nil_append] at h
  obtain ⟨hk, hrest⟩ := eq_of_append_cons_eq doubleQuote k1 k2 _ _ h1.2.1 h2.2.1 h
  simp only [List.cons.injEq, true_and] at hrest
  obtain ⟨hv, ht⟩ := eq_of_append_cons_eq doubleQuote v1 v2 _ _ h1.2.2 h2.2.2 hrest
  exact ⟨by rw [hk, hv], ht⟩

theorem entryText_ne_nil (e : GoString × GoString) (t : GoString) : entryText e ++ t ≠ [] := by
  have h1 : str "\"" = [doubleQuote] := by decide
  unfold entryText
  split <;> simp [h1]

theorem intercalate_cons_cons (sep x y : GoString) (r : List GoString) :
    List.intercalate sep (x :: y :: r) = x ++ (sep ++ List.intercalate sep (y :: r)) := by
  simp [List.intercalate]

/-- The entries joined by `, ` determine the entries, when no key is `stack`
and no key or value holds a quote. -/
theorem intercalate_entryText_inj (es1 es2 : GoMap)
    (h1 : ∀ e ∈ es1, e.1 ≠ str "stack" ∧ doubleQuote ∉ e.1 ∧ doubleQuote ∉ e.2)
    (h2 : ∀ e ∈ es2, e.1 ≠ str "stack" ∧ doubleQuote ∉ e.1 ∧ doubleQuote ∉ e.2)
    (h : List.intercalate (str ", ") (es1.map entryText)
      = List.intercalate (str ", ") (es2.map entryText)) : es1 = es2 := by
  have hsep : str ", " ≠ [] := by decide
  have hone : ∀ x : GoString, List.intercalate (str ", ") [x] = x ++ [] := by
    intro x; simp [List.intercalate]
  have hnil : List.intercalate (str ", ") ([] : List GoString) = [] := by
    simp [List.intercalate]
  induction es1 generalizing es2 with
  | nil =>
    cases es2 with
    | nil => rfl
    | cons e2 r2 =>
      exfalso
      cases r2 with
      | nil =>
        simp only [List.map_nil, List.map_cons, hnil, hone] at h
        exact entryText_ne_nil e2 [] h.symm
      | cons y2 s2 =>
        simp only [List.map_nil, List.map_cons, hnil, intercalate_cons_cons] at h
        exact entryText_ne_nil e2 _ h.symm
  | cons e1 r1 ih =>
    cases es2 with
    | nil =>
      exfalso
      cases r1 with
      | nil =>
        simp only [List.map_nil, List.map_cons, hnil, hone] at h
        exact entryText_ne_nil e1 [] h
      | cons y1 s1 =>
        simp only [List.map_nil, List.map_cons, hnil, intercalate_cons_cons] at h
        exact entryText_ne_nil e1 _ h
    | cons e2 r2 =>
      have g1 := h1 e1 (List.mem_cons_self _ _)
      have g2 := h2 e2 (List.mem_cons_self _ _)
      have hr1 : ∀ e ∈ r1, e.1 ≠ str "stack" ∧ doubleQuote ∉ e.1 ∧ doubleQuote ∉ e.2 :=
        fun e he => h1 e (List.mem_cons_of_mem _ he)
      have hr2 : ∀ e ∈ r2, e.1 ≠ str "stack" ∧ doubleQuote ∉ e.1 ∧ doubleQuote ∉ e.2 :=
        fun e he => h2 e (List.mem_cons_of_mem _ he)
      cases r1 with
      | nil =>
        cases r2 with
        | nil =>
          simp only [List.map_nil, List.map_cons, hone] at h
          rw [(entryText_append_inj e1 e2 [] [] g1 g2 h).1]
        | cons y2 s2 =>
          exfalso
          simp only [List.map_nil, List.map_cons, hone, intercalate_cons_cons] at h
          have ht := (entryText_append_inj e1 e2 _ _ g1 g2 h).2
          exact hsep (List.append_eq_nil.1 ht.symm).1
      | cons y1 s1 =>
        cases r2 with
        | nil =>
          exfalso
          simp only [List.map_nil, List.map_cons, hone, intercalate_cons_cons] at h
          have ht := (entryText_append_inj e1 e2 _ _ g1 g2 h).2
          exact hsep (List.append_eq_nil.1 ht).1
        | cons y2 s2 =>
          simp only [List.map_cons, intercalate_cons_cons] at h
          obtain ⟨he, ht⟩ := entryText_append_inj e1 e2 _ _ g1 g2 h
          have hrest := ih (y2 :: s2) hr1 hr2 (by
            simpa only [List.map_cons] using List.append_cancel_left ht)
          rw [he, hrest]

theorem mem_of_mapLookup (m : GoMap) (k v : GoString) (h : mapLookup m k = some v) :
    (k, v) ∈ m := by
  induction m with
  | nil => simp [mapLookup] at h
  | cons e rest ih =>
    obtain ⟨a, b⟩ := e
    by_cases hak : a = k
    · simp only [mapLookup, hak, if_true, Option.some.injEq] at h
      rw [hak, h]
      exact List.mem_cons_self _ _
    · simp only [mapLookup, hak, if_false] at h
      exact List.mem_cons_of_mem _ (ih h)

/-- Two listings of the same entries with distinct keys read the same at every
key. -/
theorem mapLookup_eq_of_perm (m1 m2 : GoMap) (h1 : (mapKeys m1).Nodup)
    (h2 : (mapKeys m2).Nodup) (hperm : m1.Perm m2) (k : GoString) :
    mapLookup m1 k = mapLookup m2 k := by
  cases h : mapLookup m2 k with
  | some v =>
    exact mapLookup_of_mem m1 h1 k v (hperm.symm.subset (mem_of_mapLookup m2 k v h))
  | none =>
    cases h' : mapLookup m1 k with
    | none => rfl
    | some v =>
      have := mapLookup_of_mem m2 h2 k v (hperm.subset (mem_of_mapLookup m1 k v h'))
      rw [h] at this
      cases this

/-- C16: on mappings without the key `stack` whose keys and values hold no
double quote, `JSONFormatter` is injective: two such mappings with the same
output have the same entries, so they are the same mapping and read the same
at every key. -/
theorem JSONFormatter_injective (m1 m2 : GoMap) (hn1 : (mapKeys m1).Nodup)
    (hn2 : (mapKeys m2).Nodup)
    (h1 : ∀ e ∈ m1, e.1 ≠ str "stack" ∧ doubleQuote ∉ e.1 ∧ doubleQuote ∉ e.2)
    (h2 : ∀ e ∈ m2, e.1 ≠ str "stack" ∧ doubleQuote ∉ e.1 ∧ doubleQuote ∉ e.2)
    (h : JSONFormatter m1 = JSONFormatter m2) :
    m1.Perm m2 ∧ (∀ e, e ∈ m1 ↔ e ∈ m2) ∧ ∀ k, mapLookup m1 k = mapLookup m2 k := by
  obtain ⟨es1, hp1, hs1⟩ := exists_sorted_listing m1 hn1
  obtain ⟨es2, hp2, hs2⟩ := exists_sorted_listing m2 hn2
  rw [(JSONFormatter_of_sorted m1 es1 hp1 ((pairwise_less_iff _).1 hs1)).2,
    (JSONFormatter_of_sorted m2 es2 hp2 ((pairwise_less_iff _).1 hs2)).2] at h
  unfold lineText at h
  have hbody := List.append_cancel_left (List.append_cancel_right h)
  have hes : es1 = es2 :=
    intercalate_entryText_inj es1 es2 (fun e he => h1 e (hp1.subset he))
      (fun e he => h2 e (hp2.subset he)) hbody
  have hperm : m1.Perm m2 := hp1.symm.trans (hes ▸ hp2)
  exact ⟨hperm, fun e => hperm.mem_iff, mapLookup_eq_of_perm m1 m2 hn1 hn2 hperm⟩

theorem JSONFormatter_injective_witness :
    (mapKeys [(str "b", str "2"), (str "a", str "1")]).Nodup ∧
    (∀ e ∈ [(str "b", str "2"), (str "a", str "1")],
      e.1 ≠ str "stack" ∧ doubleQuote ∉ e.1 ∧ doubleQuote ∉ e.2) ∧
    JSONFormatter [(str "b", str "2"), (str "a", str "1")]
      = JSONFormatter [(str "a", str "1"), (str "b", str "2")] ∧
    List.Perm [(str "b", str "2"), (str "a", str "1")] [(str "a", str "1"), (str "b", str "2")] :=
  ⟨by decide, by decide, by decide,
    (JSONFormatter_injective [(str "b", str "2"), (str "a", str "1")]
      [(str "a", str "1"), (str "b", str "2")] (by decide) (by decide) (by decide) (by decide)
      (by decide)).1⟩


/-! ## Defaults are read by `New` only -/

/-- The defaults do matter when `New` runs: with another default formatter in
place at construction, the logger of the same `Config` writes another line. -/
theorem New_reads_defaults_at_construction :
    ((New (initialDefaults (fun _ => str "c") (fun _ => str "t") bufferWriter)
        { Caller := none, Filter := none, Formatter := none, Timer := none,
          Writer := none }).1.Log [] Context.Background [str "message", str "foo"]).sink
      ≠ ((New { initialDefaults (fun _ => str "c") (fun _ => str "t") bufferWriter with
            DefaultFormatter := fun _ => str "other" }
        { Caller := none, Filter := none, Formatter := none, Timer := none,
          Writer := none }).1.Log [] Context.Background [str "message", str "foo"]).sink := by
  decide

end logger
